import Mathlib

/-!
Verification development for the `grapher.py` include-dependency grapher.

The Python source is shallowly embedded below: file contents are lists of
lines, the filesystem and directory structure are explicit environment
records, exceptions become `Except`/`Option` values, and the regex
`\s*#\s*include\s+(\S+)` is implemented as an executable scanner over
lists of characters.
-/

namespace Grapher

/-! ## Include extraction (the regex and `GraphFile._get_include_list`) -/

/-- Character class of the regex escape `\s` (ASCII whitespace range:
space, tab, newline, carriage return, vertical tab, form feed). -/
def isSpace (c : Char) : Bool :=
  c == ' ' || c == '\t' || c == '\n' || c == '\r' || c == '\x0b' || c == '\x0c'

/-- Match a literal character sequence at the head of the input; on success
return the remaining input. -/
def stripLit : List Char → List Char → Option (List Char)
  | [], l => some l
  | _ :: _, [] => none
  | c :: cs, x :: xs => if x = c then stripLit cs xs else none

/-- Capture the group `(\S+)` at the head of the input: the maximal
non-whitespace prefix, which must be non-empty, together with the
remaining input. -/
def takeToken (l : List Char) : Option (List Char × List Char) :=
  match l.takeWhile (fun ch => !isSpace ch) with
  | [] => none
  | tok => some (tok, l.drop tok.length)

/-- Attempt to match the source regex `\s*#\s*include\s+(\S+)` anchored at
the start of the input.  On success return the captured group and the
input remaining after the match.  Greedy matching without backtracking is
exact for this pattern: every whitespace run is followed by a mandatory
non-whitespace character, so shortening a run can never create a match. -/
def tryMatchInclude (l : List Char) : Option (List Char × List Char) :=
  match l.dropWhile isSpace with
  | [] => none
  | c :: l2 =>
    if c = '#' then
      match stripLit ("include".toList) (l2.dropWhile isSpace) with
      | none => none
      | some [] => none
      | some (d :: l5) =>
        if isSpace d then takeToken (l5.dropWhile isSpace) else none
    else none

/-- Left-to-right non-overlapping scan of `re.findall`: try the pattern at
the current position; on success resume after the match, otherwise advance
one character.  `fuel` bounds the recursion; each step consumes at least
one character, so `fuel = l.length` suffices (see `findAllGo_fuel`). -/
def findAllGo : Nat → List Char → List (List Char)
  | 0, _ => []
  | fuel + 1, l =>
    match tryMatchInclude l with
    | some (tok, rest) => tok :: findAllGo fuel rest
    | none =>
      match l with
      | [] => []
      | _ :: t => findAllGo fuel t

/-- All captured tokens of `re.findall(r'\s*#\s*include\s+(\S+)', line)`,
in order of occurrence. -/
def findAllIncludes (l : List Char) : List (List Char) :=
  findAllGo l.length l

/-- Python slice `x[1:-1]`: the string with its first and last characters
removed (empty when the length is at most two). -/
def dropEnds (l : List Char) : List Char :=
  (l.drop 1).dropLast

/-- The include tokens contributed by one line of the file:
`[x[1:-1] for x in re.findall(r'\s*#\s*include\s+(\S+)', line) if x]`. -/
def lineIncludes (line : String) : List String :=
  ((findAllIncludes line.toList).filter (fun x => !x.isEmpty)).map
    (fun x => (dropEnds x).asString)

/-- The include list extracted from a readable file, given as its list of
lines (the comprehension in `GraphFile._get_include_list` iterates the
lines of the open file in order). -/
def extractFromLines (lines : List String) : List String :=
  lines.flatMap lineIncludes

/-! ## Path splitting (`os.path.splitext`) -/

/-- Index of the last occurrence of a character (Python `str.rfind`,
with `none` for the `-1` "not found" result). -/
def rfindIdx (c : Char) : List Char → Option Nat
  | [] => none
  | x :: xs =>
    match rfindIdx c xs with
    | some i => some (i + 1)
    | none => if x = c then some 0 else none

/-- Python `rfind` result as an `Int`, `-1` when absent. -/
def rfindInt (c : Char) (l : List Char) : Int :=
  match rfindIdx c l with
  | none => -1
  | some i => (i : Int)

/-- Python `os.path.splitext` for POSIX paths: split off the extension at
the last `.` that lies after the last `/`, unless every character between
the basename start and that dot is itself a dot (so that dotfiles such as
`.bashrc` keep an empty extension). -/
def splitext (p : String) : String × String :=
  let l := p.toList
  let sepI : Int := rfindInt '/' l
  let dotI : Int := rfindInt '.' l
  if dotI > sepI then
    let start := (sepI + 1).toNat
    let dotn := dotI.toNat
    if ((l.drop start).take (dotn - start)).any (fun c => c ≠ '.') then
      ((l.take dotn).asString, (l.drop dotn).asString)
    else
      (p, "")
  else
    (p, "")

/-- Base name with the extension stripped: `os.path.splitext(p)[0]`. -/
def splitextBase (p : String) : String :=
  (splitext p).1

/-! ## Data model -/

/-- The fixed color palette `COLOR_LIST` of the source. -/
def COLOR_LIST : List String :=
  ["aquamarine4", "bisque4", "black", "blue", "blueviolet", "brown", "cadetblue",
   "chartreuse4", "chocolate", "coral2", "crimson",
   "cyan3", "fuchsia", "gold3", "gray50", "green4", "indigo", "magenta", "maroon",
   "olive", "orange3",
   "orchid3", "plum", "purple", "red", "royalblue", "salmon", "seagreen", "sienna",
   "skyblue4", "teal",
   "tomato", "turquoise4", "violetred", "yellow3"]

/-- One entry of `os.scandir`: its name and whether `is_file()` holds. -/
structure DirEntry where
  entryName : String
  isFile : Bool
deriving DecidableEq

/-- The parts of the operating system the program consults during
construction: `os.path.isdir`, `os.scandir` (entries in scan order), and
reading a file as its list of lines (`none` models any `open`/read
failure caught by the bare `except`). -/
structure Env where
  isDir : String → Bool
  scandir : String → List DirEntry
  readFile : String → Option (List String)

/-- A `GraphFile` record: base name, extension, containing directory,
assigned color and the extracted include list. -/
structure GraphFile where
  name : String
  ext : String
  path : String
  color : String
  includes : List String
deriving DecidableEq

/-- Embedding of `GraphFile._get_include_list`: open `f'{path}{name}{ext}'`
and extract the include tokens; an unreadable file yields `[]` (the bare
`except`). -/
def getIncludeList (env : Env) (path name ext : String) : List String :=
  match env.readFile (path ++ name ++ ext) with
  | none => []
  | some lines => extractFromLines lines

/-- Embedding of `GraphFile.__init__`. -/
def mkGraphFile (env : Env) (name ext path color : String) : GraphFile :=
  ⟨name, ext, path, color, getIncludeList env path name ext⟩

/-- The edge targets of the per-file rendering `GraphFile.__str__`: the
include list, filtered — when a collection is passed — to targets matched
by some collected file's `name + ext`. -/
def fileEdgeTargets (f : GraphFile) (files : Option (List GraphFile)) : List String :=
  match files with
  | none => f.includes
  | some fs => f.includes.filter (fun x => fs.any (fun y => y.name ++ y.ext == x))

/-- The edge targets of the per-module rendering `GraphFile.__repr__`:
base names of the includes, excluding those whose base name equals the
file's own base name, and — when a collection is passed — those not
matched by some collected file's `name + ext`. -/
def moduleEdgeTargets (f : GraphFile) (files : Option (List GraphFile)) : List String :=
  match files with
  | none =>
    (f.includes.filter (fun x => splitextBase x != f.name)).map splitextBase
  | some fs =>
    (f.includes.filter
      (fun x => splitextBase x != f.name && fs.any (fun y => y.name ++ y.ext == x))).map
      splitextBase

/-- Wrap a string in double quotes, as the `"{}"` formats do. -/
def quoteStr (s : String) : String :=
  "\"" ++ s ++ "\""

/-- The full text of `GraphFile.__str__`. -/
def strRender (f : GraphFile) (files : Option (List GraphFile)) : String :=
  quoteStr (f.name ++ f.ext) ++ " [color=" ++ quoteStr f.color ++ ", fontcolor=" ++
    quoteStr f.color ++ "] " ++ quoteStr (f.name ++ f.ext) ++ " -> \x7b" ++
    String.intercalate (" ") ((fileEdgeTargets f files).map quoteStr) ++
    "\x7d [color=" ++ quoteStr f.color ++ "]"

/-- The full text of `GraphFile.__repr__`. -/
def reprRender (f : GraphFile) (files : Option (List GraphFile)) : String :=
  quoteStr f.name ++ " [color=" ++ quoteStr f.color ++ ", fontcolor=" ++
    quoteStr f.color ++ "] " ++ quoteStr f.name ++ " -> \x7b" ++
    String.intercalate (" ") ((moduleEdgeTargets f files).map quoteStr) ++
    "\x7d [color=" ++ quoteStr f.color ++ "]"

/-- A `GraphSet` record after a successful construction.  `colorIdx` is
the state of the `cycle(COLOR_LIST)` iterator: the number of `next` calls
made so far. -/
structure GraphSet where
  name : String
  mode : String
  output : String
  standalone : Option String
  knownOnly : Bool
  colorMode : Bool
  colorIdx : Nat
  files : List GraphFile
deriving DecidableEq

/-- The `ValueError` raised by `GraphSet.__init__` for a path that is not
an existing directory. -/
inductive InitError where
  | valueErrorNotDir (path : String)
deriving DecidableEq

/-- Python `d + '/' if not d.endswith('/') else d`. -/
def dirSlash (d : String) : String :=
  if d.toList.getLast? == some '/' then d else d ++ "/"

/-- The body of the `os.scandir` loop of `GraphSet._get_dir_files` for a
single entry: non-files are skipped; a file is appended with its color.
With color mode on, the first already-collected file with the same base
name donates its color (the `for ... break` loop); otherwise the color is
the next palette entry (`next(self.colors)`, which alone advances the
cycle).  With color mode off the color stays the `'black'` default. -/
def stepEntry (env : Env) (cm : Bool) (path : String)
    (st : List GraphFile × Nat) (x : DirEntry) : List GraphFile × Nat :=
  if x.isFile then
    if cm then
      match st.1.find? (fun f => f.name == (splitext x.entryName).1) with
      | some f =>
        (st.1 ++ [mkGraphFile env (splitext x.entryName).1
          (splitext x.entryName).2 path f.color], st.2)
      | none =>
        (st.1 ++ [mkGraphFile env (splitext x.entryName).1
          (splitext x.entryName).2 path
          (COLOR_LIST.getD (st.2 % COLOR_LIST.length) ("black"))], st.2 + 1)
    else
      (st.1 ++ [mkGraphFile env (splitext x.entryName).1
        (splitext x.entryName).2 path ("black")], st.2)
  else st

/-- Embedding of `GraphSet._get_dir_files`: fold the scan entries of one
directory. -/
def getDirFiles (env : Env) (cm : Bool) (st : List GraphFile × Nat)
    (path : String) : List GraphFile × Nat :=
  (env.scandir path).foldl (stepEntry env cm path) st

/-- The `for directory in dir_list` loop of `GraphSet.__init__`.  Besides
the `Except` result it returns the trace of directory paths actually
scanned, in order. -/
def initLoop (env : Env) (cm : Bool) :
    List String → List GraphFile × Nat → List String →
    Except InitError (List GraphFile × Nat) × List String
  | [], st, tr => (.ok st, tr)
  | d :: ds, st, tr =>
    if env.isDir d then
      initLoop env cm ds (getDirFiles env cm st (dirSlash d)) (tr ++ [dirSlash d])
    else
      (.error (.valueErrorNotDir d), tr)

/-- Embedding of `GraphSet.__init__`: validate the output directory, then
scan each input directory in order, validating it first.  The second
component is the trace of scanned directory paths. -/
def mkGraphSet (env : Env) (dirList : List String) (name mode output : String)
    (standalone : Option String) (knownOnly colorMode : Bool) :
    Except InitError GraphSet × List String :=
  if env.isDir output then
    match initLoop env colorMode dirList ([], 0) [] with
    | (.ok st, tr) =>
      (.ok ⟨name, mode, dirSlash output, standalone, knownOnly, colorMode, st.2, st.1⟩, tr)
    | (.error e, tr) => (.error e, tr)
  else
    (.error (.valueErrorNotDir output), [])

/-- The files surviving the `standalone` filter of `GraphSet.render`. -/
def renderedFiles (gs : GraphSet) : List GraphFile :=
  gs.files.filter (fun f =>
    match gs.standalone with
    | none => true
    | some s => s == f.name)

/-- The text `GraphSet.render` writes to the `.gv` file: the graph header,
one per-file or per-module statement per surviving file (with the
collection passed when known-only filtering is on), and the closing
brace. -/
def gvContent (gs : GraphSet) : String :=
  "digraph " ++ quoteStr gs.name ++ " \x7b\n" ++
  (if gs.mode == "file" then
    String.join ((renderedFiles gs).map (fun f =>
      strRender f (if gs.knownOnly then some gs.files else none) ++ "\n"))
   else "") ++
  (if gs.mode == "module" then
    String.join ((renderedFiles gs).map (fun f =>
      reprRender f (if gs.knownOnly then some gs.files else none) ++ "\n"))
   else "") ++
  "\x7d"

/-! ## Rendering (`GraphSet.render`) -/

/-- The error outcomes of `GraphSet.render`. -/
inductive RenderErr where
  | osErrorDotNotFound
  | calledProcessError
  | osErrorNoViewer
  | viewerProcessError
deriving DecidableEq

/-- The parts of the system `GraphSet.render` interacts with: whether
`shutil.which('dot')` finds the layout tool, whether the `dot` subprocess
succeeds, the platform default-viewer application (`none` for an
unhandled platform), and whether the viewer subprocess succeeds. -/
structure RenderEnv where
  dotOnPath : Bool
  dotRunOk : Bool
  viewerApp : Option String
  viewerRunOk : Bool
deriving DecidableEq

/-- The filesystem as the set of existing paths: creating a file by
`open(..., 'w')`.  Contents are modelled separately by `gvContent`; only
presence matters to the rendering claims. -/
def writeFS (fs : List String) (p : String) : List String :=
  if p ∈ fs then fs else fs ++ [p]

/-- Python `os.remove`. -/
def removeFS (fs : List String) (p : String) : List String :=
  fs.filter (fun q => q != p)

/-- Embedding of `GraphSet.render` on the set of existing paths: write
the `.gv` description; if `dot` is not on the `PATH`, remove the
description and fail with the `OSError`; if the `dot` subprocess fails,
propagate its error; otherwise the PDF exists, the description is removed
when `cleanup` holds, and with `view` the platform viewer is invoked
(failing with an `OSError` on an unhandled platform). -/
def render (gs : GraphSet) (cleanup view : Bool) (env : RenderEnv)
    (fs0 : List String) : List String × Option RenderErr :=
  let gv := gs.output ++ gs.name ++ ".gv"
  let pdf := gs.output ++ gs.name ++ ".pdf"
  let fs1 := writeFS fs0 gv
  if env.dotOnPath then
    if env.dotRunOk then
      let fs2 := writeFS fs1 pdf
      let fs3 := if cleanup then removeFS fs2 gv else fs2
      if view then
        match env.viewerApp with
        | none => (fs3, some .osErrorNoViewer)
        | some _ => if env.viewerRunOk then (fs3, none) else (fs3, some .viewerProcessError)
      else (fs3, none)
    else (fs1, some .calledProcessError)
  else
    (removeFS fs1 gv, some .osErrorDotNotFound)

/-! ## Spec-side definitions and measurement functions -/

/-- Whether a token is delimited by a quote pair or an angle-bracket
pair. -/
def delimited (t : List Char) : Bool :=
  2 ≤ t.length &&
    ((t.head? == some '"' && t.getLast? == some '"') ||
     (t.head? == some '<' && t.getLast? == some '>'))

/-- Modelled from the spec: the claim's reading of the extractor output,
"each referenced filename stripped of its delimiting quote or
angle-bracket characters" — the first and last characters are removed
only when they form a quote pair or an angle-bracket pair. -/
def specStripDelims (t : List Char) : List Char :=
  if delimited t then (t.drop 1).dropLast else t

/-- Modelled from the spec: the extractor as the claim describes it, with
only delimiter characters stripped from the matched tokens. -/
def specExtractFromLines (lines : List String) : List String :=
  lines.flatMap (fun line =>
    ((findAllIncludes line.toList).filter (fun x => !x.isEmpty)).map
      (fun x => (specStripDelims x).asString))

/-- The number of include directives of one line whose referenced target
(after the `x[1:-1]` slice) is `t`. -/
def numDirectivesInLine (line : String) (t : String) : Nat :=
  ((findAllIncludes line.toList).filter (fun x => !x.isEmpty)).countP
    (fun x => (dropEnds x).asString == t)

/-- The files of a construction result, empty on error. -/
def filesOf (r : Except InitError GraphSet) : List GraphFile :=
  match r with
  | .ok gs => gs.files
  | .error _ => []

/-- A default `GraphFile` used with `List.getD`. -/
def noFile : GraphFile :=
  ⟨"", "", "", "", []⟩

/-! ## Color-assignment invariants -/

/-- All files sharing a base name share a color. -/
def sameNameColor (fs : List GraphFile) : Prop :=
  ∀ f ∈ fs, ∀ g ∈ fs, f.name = g.name → f.color = g.color

/-- All files are colored `black`. -/
def allBlack (fs : List GraphFile) : Prop :=
  ∀ f ∈ fs, f.color = "black"

/-- All colors come from the palette. -/
def colorsInPalette (fs : List GraphFile) : Prop :=
  ∀ f ∈ fs, f.color ∈ COLOR_LIST

/-! ## Concrete fixtures used by witnesses and counterexamples -/

/-- A `GraphSet` fixture for the rendering claims. -/
def gsR : GraphSet :=
  ⟨"set", "file", "./", none, false, false, 0, []⟩

/-- A render environment with the layout tool available. -/
def envR : RenderEnv :=
  ⟨true, true, none, true⟩

/-- A render environment with the layout tool missing. -/
def envRX : RenderEnv :=
  ⟨false, true, none, true⟩

/-- An environment on which every file read fails. -/
def envU : Env :=
  ⟨fun _ => false, fun _ => [], fun _ => none⟩

/-- A file fixture for the self-edge claim. -/
def fW4 : GraphFile :=
  ⟨"a", ".c", "d/", "black", ["b.h", "a.h"]⟩

/-- A file whose include resolves to a scanned file of the same base
name. -/
def fC3 : GraphFile :=
  ⟨"a", ".c", "d/", "black", ["a.h"]⟩

/-- A collection containing `fC3` and the file its include resolves to. -/
def fsC3 : List GraphFile :=
  [fC3, ⟨"a", ".h", "d/", "black", []⟩]

/-- An environment with one directory holding `a.c`, `x.h`, `a.h`. -/
def envW6 : Env :=
  ⟨fun s => s == "." || s == "d",
   fun p => if p == "d/" then [⟨"a.c", true⟩, ⟨"x.h", true⟩, ⟨"a.h", true⟩] else [],
   fun _ => none⟩

/-- The collection built from `envW6` with color mode on: `a.h` reuses
the color of `a.c`. -/
def gsW6 : GraphSet :=
  ⟨"set", "file", "./", none, false, true, 2,
   [⟨"a", ".c", "d/", "aquamarine4", []⟩,
    ⟨"x", ".h", "d/", "bisque4", []⟩,
    ⟨"a", ".h", "d/", "aquamarine4", []⟩]⟩

/-- An environment with one directory holding `a.c` and `b.c`. -/
def envC2 : Env :=
  ⟨fun s => s == "." || s == "d",
   fun p => if p == "d/" then [⟨"a.c", true⟩, ⟨"b.c", true⟩] else [],
   fun _ => none⟩

/-- The collection built from `envC2` with color mode off: both files
are black. -/
def gsW2 : GraphSet :=
  ⟨"set", "file", "./", none, false, false, 0,
   [⟨"a", ".c", "d/", "black", []⟩, ⟨"b", ".c", "d/", "black", []⟩]⟩

/-- An environment in which no path is a directory. -/
def envW9 : Env :=
  ⟨fun _ => false, fun _ => [], fun _ => none⟩

/-! ## Scanner hygiene: the fuel of `findAllGo` is irrelevant -/

theorem stripLit_length_le : ∀ (pre l r : List Char),
    stripLit pre l = some r → r.length ≤ l.length
  | [], l, r, h => by
    injection h with h
    rw [← h]
  | _ :: _, [], _, h => by cases h
  | c :: cs, x :: xs, r, h => by
    unfold stripLit at h
    split at h
    · have := stripLit_length_le cs xs r h
      simp only [List.length_cons]
      omega
    · cases h

theorem takeToken_rest_lt (l tok rest : List Char)
    (h : takeToken l = some (tok, rest)) : rest.length < l.length := by
  unfold takeToken at h
  cases htw : l.takeWhile (fun ch => !isSpace ch) with
  | nil => rw [htw] at h; cases h
  | cons a as =>
    rw [htw] at h
    injection h with h
    injection h with h1 h2
    have hle : (a :: as).length ≤ l.length := by
      rw [← htw]
      have hsub : List.Sublist (l.takeWhile (fun ch => !isSpace ch)) l :=
        List.takeWhile_sublist (fun ch => !isSpace ch)
      exact hsub.length_le
    rw [← h2, List.length_drop]
    simp only [List.length_cons] at hle ⊢
    omega

theorem tryMatchInclude_rest_lt (l tok rest : List Char)
    (h : tryMatchInclude l = some (tok, rest)) : rest.length < l.length := by
  have hsubl : List.Sublist (l.dropWhile isSpace) l := List.dropWhile_sublist isSpace
  cases hdw : l.dropWhile isSpace with
  | nil =>
    unfold tryMatchInclude at h
    rw [hdw] at h
    cases h
  | cons c l2 =>
    have hl2 : l2.length < l.length := by
      have hlen := hsubl.length_le
      rw [hdw] at hlen
      simp only [List.length_cons] at hlen
      omega
    have h1 : (if c = '#' then
        match stripLit ("include".toList) (l2.dropWhile isSpace) with
        | none => none
        | some [] => none
        | some (d :: l5) =>
          if isSpace d then takeToken (l5.dropWhile isSpace) else none
      else none) = some (tok, rest) := by
      unfold tryMatchInclude at h
      rw [hdw] at h
      exact h
    by_cases hc : c = '#'
    · rw [if_pos hc] at h1
      cases hsl : stripLit ("include".toList) (l2.dropWhile isSpace) with
      | none =>
        rw [hsl] at h1
        cases h1
      | some l4 =>
        rw [hsl] at h1
        have hl4 : l4.length ≤ l2.length := by
          have ha := stripLit_length_le _ _ _ hsl
          have hsub2 : List.Sublist (l2.dropWhile isSpace) l2 :=
            List.dropWhile_sublist isSpace
          have hb := hsub2.length_le
          omega
        cases l4 with
        | nil => cases h1
        | cons d l5 =>
          have h2 : (if isSpace d then takeToken (l5.dropWhile isSpace) else none)
              = some (tok, rest) := h1
          by_cases hd : isSpace d = true
          · rw [if_pos hd] at h2
            have hrest := takeToken_rest_lt _ _ _ h2
            have hsub3 : List.Sublist (l5.dropWhile isSpace) l5 :=
              List.dropWhile_sublist isSpace
            have h5 := hsub3.length_le
            simp only [List.length_cons] at hl4
            omega
          · rw [if_neg hd] at h2
            cases h2
    · rw [if_neg hc] at h1
      cases h1

theorem findAllGo_succ_eq (fuel : Nat) (l : List Char) :
    findAllGo (fuel + 1) l =
      match tryMatchInclude l with
      | some (tok, rest) => tok :: findAllGo fuel rest
      | none =>
        match l with
        | [] => []
        | _ :: t => findAllGo fuel t := rfl

theorem findAllGo_fuel : ∀ (fuel fuel' : Nat) (l : List Char),
    l.length ≤ fuel → l.length ≤ fuel' →
    findAllGo fuel l = findAllGo fuel' l := by
  intro fuel
  induction fuel with
  | zero =>
    intro fuel' l h _
    have hnil : l = [] := List.length_eq_zero.mp (Nat.le_zero.mp h)
    subst hnil
    cases fuel' <;> rfl
  | succ k ih =>
    intro fuel' l h h'
    cases l with
    | nil => cases fuel' <;> rfl
    | cons a t =>
      cases fuel' with
      | zero =>
        simp only [List.length_cons] at h'
        omega
      | succ m =>
        rw [findAllGo_succ_eq k (a :: t), findAllGo_succ_eq m (a :: t)]
        cases hm : tryMatchInclude (a :: t) with
        | some pr =>
          cases pr with
          | mk tok rest =>
            have hlt := tryMatchInclude_rest_lt _ _ _ hm
            simp only [hm]
            congr 1
            simp only [List.length_cons] at h h' hlt
            exact ih m rest (by omega) (by omega)
        | none =>
          simp only [hm]
          show findAllGo k t = findAllGo m t
          simp only [List.length_cons] at h h'
          exact ih m t (by omega) (by omega)

/-! ## Supporting lemmas -/

theorem mem_writeFS_iff {fs : List String} {p q : String} :
    q ∈ writeFS fs p ↔ q ∈ fs ∨ q = p := by
  unfold writeFS
  split
  · constructor
    · exact Or.inl
    · rintro (h | rfl)
      · exact h
      · assumption
  · simp [List.mem_append]

theorem mem_removeFS_iff {fs : List String} {p q : String} :
    q ∈ removeFS fs p ↔ q ∈ fs ∧ q ≠ p := by
  simp [removeFS, List.mem_filter, bne_iff_ne]

theorem gv_ne_pdf (o n : String) : o ++ n ++ ".gv" ≠ o ++ n ++ ".pdf" := by
  intro h
  have hl := congrArg String.length h
  have h3 : (".gv" : String).length = 3 := rfl
  have h4 : (".pdf" : String).length = 4 := rfl
  simp only [String.length_append, h3, h4] at hl
  omega

theorem foldl_preserves {α β : Type} {P : α → Prop} {step : α → β → α}
    (h : ∀ a b, P a → P (step a b)) :
    ∀ (l : List β) (a : α), P a → P (l.foldl step a)
  | [], _, ha => ha
  | b :: l, a, ha => foldl_preserves h l (step a b) (h a b ha)

/-- With the layout tool available and succeeding, the filesystem after
`render` holds exactly the written files, minus the description when
`cleanup` is set, regardless of the viewer branch. -/
theorem render_fs_of_ok (gs : GraphSet) (cleanup view : Bool) (env : RenderEnv)
    (fs0 : List String) (h1 : env.dotOnPath = true) (h2 : env.dotRunOk = true) :
    (render gs cleanup view env fs0).1 =
      (if cleanup then
        removeFS (writeFS (writeFS fs0 (gs.output ++ gs.name ++ ".gv"))
          (gs.output ++ gs.name ++ ".pdf")) (gs.output ++ gs.name ++ ".gv")
       else
        writeFS (writeFS fs0 (gs.output ++ gs.name ++ ".gv"))
          (gs.output ++ gs.name ++ ".pdf")) := by
  simp only [render, h1, h2, if_true]
  cases view
  · rfl
  · cases env.viewerApp
    · rfl
    · cases env.viewerRunOk <;> rfl

/-! ## Claim theorems -/

/-- Claim C8: when `dot` is found and its run succeeds (the PDF is
produced), the intermediate `.gv` description file exists in the final
filesystem if and only if `cleanup` is false, and the PDF exists. -/
theorem render_cleanup_iff (gs : GraphSet) (cleanup view : Bool) (env : RenderEnv)
    (fs0 : List String) (h1 : env.dotOnPath = true) (h2 : env.dotRunOk = true) :
    ((gs.output ++ gs.name ++ ".gv") ∈ (render gs cleanup view env fs0).1 ↔
      cleanup = false) ∧
    (gs.output ++ gs.name ++ ".pdf") ∈ (render gs cleanup view env fs0).1 := by
  rw [render_fs_of_ok gs cleanup view env fs0 h1 h2]
  have hne := gv_ne_pdf gs.output gs.name
  cases cleanup
  · rw [if_neg (by decide : ¬((false : Bool) = true))]
    constructor
    · simp [mem_writeFS_iff]
    · simp [mem_writeFS_iff]
  · rw [if_pos rfl]
    constructor
    · simp [mem_removeFS_iff]
    · rw [mem_removeFS_iff, mem_writeFS_iff]
      exact ⟨Or.inr rfl, fun h => hne h.symm⟩

theorem render_cleanup_iff_witness :
    ((gsR.output ++ gsR.name ++ ".gv") ∈ (render gsR true false envR []).1 ↔
      true = false) ∧
    (gsR.output ++ gsR.name ++ ".pdf") ∈ (render gsR true false envR []).1 :=
  render_cleanup_iff gsR true false envR [] rfl rfl

/-- Claim C10: when `dot` is not on the `PATH`, `render` deletes the
`.gv` description it has just written (for every value of `cleanup`),
fails with the `OSError`, and leaves the presence of the PDF unchanged
(none is produced). -/
theorem render_dot_missing (gs : GraphSet) (cleanup view : Bool) (env : RenderEnv)
    (fs0 : List String) (h : env.dotOnPath = false) :
    (gs.output ++ gs.name ++ ".gv") ∉ (render gs cleanup view env fs0).1 ∧
    (render gs cleanup view env fs0).2 = some RenderErr.osErrorDotNotFound ∧
    ((gs.output ++ gs.name ++ ".pdf") ∈ (render gs cleanup view env fs0).1 ↔
      (gs.output ++ gs.name ++ ".pdf") ∈ fs0) := by
  have hne := gv_ne_pdf gs.output gs.name
  have hfs : render gs cleanup view env fs0 =
      (removeFS (writeFS fs0 (gs.output ++ gs.name ++ ".gv"))
        (gs.output ++ gs.name ++ ".gv"),
       some RenderErr.osErrorDotNotFound) := by
    simp [render, h]
  rw [hfs]
  refine ⟨?_, rfl, ?_⟩
  · simp [mem_removeFS_iff]
  · rw [mem_removeFS_iff, mem_writeFS_iff]
    constructor
    · rintro ⟨h1 | h1, h2⟩
      · exact h1
      · exact absurd h1 h2
    · intro h1
      exact ⟨Or.inl h1, fun hq => hne hq.symm⟩

theorem render_dot_missing_witness :
    (gsR.output ++ gsR.name ++ ".gv") ∉ (render gsR false false envRX []).1 ∧
    (render gsR false false envRX []).2 = some RenderErr.osErrorDotNotFound ∧
    ((gsR.output ++ gsR.name ++ ".pdf") ∈ (render gsR false false envRX []).1 ↔
      (gsR.output ++ gsR.name ++ ".pdf") ∈ ([] : List String)) :=
  render_dot_missing gsR false false envRX [] rfl

/-- Claim C5: a `GraphFile` whose file cannot be opened or read has the
empty include list (the bare `except` absorbs the failure, so the
extractor is total and nothing propagates to the caller). -/
theorem unreadable_includes_empty (env : Env) (name ext path color : String)
    (h : env.readFile (path ++ name ++ ext) = none) :
    (mkGraphFile env name ext path color).includes = [] := by
  simp [mkGraphFile, getIncludeList, h]

theorem unreadable_includes_empty_witness :
    envU.readFile ("d/" ++ "a" ++ ".c") = none ∧
    (mkGraphFile envU ("a") (".c") ("d/") ("black")).includes = [] :=
  ⟨rfl, unreadable_includes_empty envU ("a") (".c") ("d/") ("black") rfl⟩

/-- Claim C4: the per-module rendering suppresses self-edges — no edge
target of `GraphFile.__repr__` equals the file's own base name, with or
without the known-only collection argument. -/
theorem module_no_self_edge (f : GraphFile) (files : Option (List GraphFile))
    (t : String) (h : t ∈ moduleEdgeTargets f files) : t ≠ f.name := by
  cases files with
  | none =>
    simp only [moduleEdgeTargets, List.mem_map, List.mem_filter] at h
    obtain ⟨x, ⟨_, hne⟩, rfl⟩ := h
    exact bne_iff_ne.mp hne
  | some fs =>
    simp only [moduleEdgeTargets, List.mem_map, List.mem_filter,
      Bool.and_eq_true] at h
    obtain ⟨x, ⟨_, hne, _⟩, rfl⟩ := h
    exact bne_iff_ne.mp hne

theorem module_no_self_edge_witness :
    "b" ∈ moduleEdgeTargets fW4 none ∧ "b" ≠ fW4.name :=
  ⟨by decide, module_no_self_edge fW4 none ("b") (by decide)⟩

/-- Claim C3 (amended): with known-only filtering, the per-file rendering
shows an include `x` as an edge target exactly when some collected file's
`name + ext` equals `x`; the per-module rendering shows a target `t`
exactly when `t` is the base name of such a known include and `t` also
differs from the file's own base name (self-edge suppression). -/
theorem known_only_targets (f : GraphFile) (fs : List GraphFile) (x t : String) :
    (x ∈ fileEdgeTargets f (some fs) ↔
      x ∈ f.includes ∧ fs.any (fun y => y.name ++ y.ext == x) = true) ∧
    (t ∈ moduleEdgeTargets f (some fs) ↔
      ∃ x', x' ∈ f.includes ∧ splitextBase x' = t ∧ t ≠ f.name ∧
        fs.any (fun y => y.name ++ y.ext == x') = true) := by
  constructor
  · simp [fileEdgeTargets, List.mem_filter]
  · simp only [moduleEdgeTargets, List.mem_map, List.mem_filter,
      Bool.and_eq_true, bne_iff_ne]
    constructor
    · rintro ⟨x', ⟨hx, hne, hany⟩, rfl⟩
      exact ⟨x', hx, rfl, hne, hany⟩
    · rintro ⟨x', hx, rfl, hne, hany⟩
      exact ⟨x', ⟨hx, hne, hany⟩, rfl⟩

/-- Claim C3 counterexample: the include `a.h` of `a.c` resolves to a
scanned file, yet the per-module rendering hides it because its base name
equals the including file's base name. -/
theorem known_only_module_self_hidden :
    "a.h" ∈ fC3.includes ∧
    fsC3.any (fun y => y.name ++ y.ext == "a.h") = true ∧
    moduleEdgeTargets fC3 (some fsC3) = [] := by
  decide

theorem count_flatMap_sum {α : Type} (g : α → List String) (t : String) :
    ∀ l : List α, ((l.flatMap g).count t) = (l.map (fun a => (g a).count t)).sum
  | [] => rfl
  | a :: l => by
    simp only [List.flatMap_cons, List.count_append, List.map_cons, List.sum_cons,
      count_flatMap_sum g t l]

/-- Claim C7: includes are not deduplicated — the multiplicity of a
target in the extracted list is the total number of include directives
referencing it across the lines, and the per-file edge statement keeps
that multiplicity. -/
theorem includes_not_deduplicated (lines : List String) (line t : String)
    (f : GraphFile) :
    (extractFromLines lines).count t =
      ((lines.map (fun l => (lineIncludes l).count t)).sum) ∧
    (lineIncludes line).count t = numDirectivesInLine line t ∧
    (fileEdgeTargets f none).count t = f.includes.count t := by
  refine ⟨count_flatMap_sum lineIncludes t lines, ?_, rfl⟩
  simp only [lineIncludes, numDirectivesInLine, List.count_eq_countP,
    List.countP_map]
  rfl

/-- Claim C1 (amended): the extractor returns, in file order, one entry
per directive match — the matched token with its first and last
characters removed (Python `x[1:-1]`); whenever every matched token is
delimited by a quote pair or an angle-bracket pair, this coincides with
the referenced filenames stripped of their delimiters. -/
theorem extractor_strips_delimiters (lines : List String)
    (h : ∀ l ∈ lines, ∀ tok ∈ findAllIncludes l.toList, delimited tok = true) :
    extractFromLines lines = specExtractFromLines lines := by
  unfold extractFromLines specExtractFromLines
  induction lines with
  | nil => rfl
  | cons l ls ih =>
    simp only [List.flatMap_cons]
    congr 1
    · unfold lineIncludes
      apply List.map_congr_left
      intro x hx
      have hx' := (List.mem_filter.mp hx).1
      have hd := h l (by simp) x hx'
      simp [specStripDelims, dropEnds, hd]
    · exact ih (fun l' hl' => h l' (by simp [hl']))

theorem extractor_strips_delimiters_witness :
    (∀ l ∈ ["#include <stdio.h>", "#include \"a.h\""],
      ∀ tok ∈ findAllIncludes l.toList, delimited tok = true) ∧
    extractFromLines ["#include <stdio.h>", "#include \"a.h\""] =
      specExtractFromLines ["#include <stdio.h>", "#include \"a.h\""] :=
  ⟨by decide, extractor_strips_delimiters _ (by decide)⟩

/-- Claim C1 counterexample: on the line `#include foo.h` the matched
token `foo.h` has no delimiters, yet the code still slices off its first
and last characters and extracts `oo.`, not the referenced filename. -/
theorem extractor_undelimited_counterexample :
    extractFromLines ["#include foo.h"] = ["oo."] ∧
    specExtractFromLines ["#include foo.h"] = ["foo.h"] ∧
    extractFromLines ["#include foo.h"] ≠
      specExtractFromLines ["#include foo.h"] := by
  decide

/-! ## Invariant preservation through construction -/

theorem sameNameColor_append (fs : List GraphFile) (gf : GraphFile)
    (h : sameNameColor fs)
    (hnew : ∀ f ∈ fs, f.name = gf.name → f.color = gf.color) :
    sameNameColor (fs ++ [gf]) := by
  intro a ha b hb hab
  rcases List.mem_append.mp ha with ha' | ha' <;>
    rcases List.mem_append.mp hb with hb' | hb'
  · exact h a ha' b hb' hab
  · have hb2 : b = gf := by simpa using hb'
    subst hb2
    exact hnew a ha' hab
  · have ha2 : a = gf := by simpa using ha'
    subst ha2
    exact (hnew b hb' hab.symm).symm
  · have ha2 : a = gf := by simpa using ha'
    have hb2 : b = gf := by simpa using hb'
    subst ha2
    subst hb2
    rfl

theorem stepEntry_skip (env : Env) (cm : Bool) (path : String)
    (st : List GraphFile × Nat) (x : DirEntry) (hx : x.isFile = false) :
    stepEntry env cm path st x = st := by
  unfold stepEntry
  rw [if_neg]
  simp [hx]

theorem stepEntry_true_eq (env : Env) (path : String)
    (st : List GraphFile × Nat) (x : DirEntry) (hx : x.isFile = true) :
    stepEntry env true path st x =
      match st.1.find? (fun f => f.name == (splitext x.entryName).1) with
      | some f0 =>
        (st.1 ++ [mkGraphFile env (splitext x.entryName).1
          (splitext x.entryName).2 path f0.color], st.2)
      | none =>
        (st.1 ++ [mkGraphFile env (splitext x.entryName).1
          (splitext x.entryName).2 path
          (COLOR_LIST.getD (st.2 % COLOR_LIST.length) ("black"))], st.2 + 1) := by
  unfold stepEntry
  rw [if_pos hx, if_pos rfl]

theorem stepEntry_false_eq (env : Env) (path : String)
    (st : List GraphFile × Nat) (x : DirEntry) (hx : x.isFile = true) :
    stepEntry env false path st x =
      (st.1 ++ [mkGraphFile env (splitext x.entryName).1
        (splitext x.entryName).2 path ("black")], st.2) := by
  unfold stepEntry
  rw [if_pos hx, if_neg (by decide : ¬((false : Bool) = true))]

theorem stepEntry_sameName (env : Env) (path : String)
    (st : List GraphFile × Nat) (x : DirEntry) (h : sameNameColor st.1) :
    sameNameColor (stepEntry env true path st x).1 := by
  cases hx : x.isFile
  · rw [stepEntry_skip env true path st x hx]
    exact h
  · rw [stepEntry_true_eq env path st x hx]
    cases hf : st.1.find? (fun f => f.name == (splitext x.entryName).1) with
    | some f0 =>
      have hf0mem := List.mem_of_find?_eq_some hf
      have hf0name : f0.name = (splitext x.entryName).1 := by
        have hp := List.find?_some hf
        simpa using hp
      apply sameNameColor_append _ _ h
      intro f hfm hname
      have hname' : f.name = f0.name := by
        rw [hf0name]
        exact hname
      exact h f hfm f0 hf0mem hname'
    | none =>
      apply sameNameColor_append _ _ h
      intro f hfm hname
      have hne := List.find?_eq_none.mp hf f hfm
      exact absurd (beq_iff_eq.mpr hname) (by simpa using hne)

theorem stepEntry_black (env : Env) (path : String)
    (st : List GraphFile × Nat) (x : DirEntry) (h : allBlack st.1) :
    allBlack (stepEntry env false path st x).1 := by
  cases hx : x.isFile
  · rw [stepEntry_skip env false path st x hx]
    exact h
  · rw [stepEntry_false_eq env path st x hx]
    intro f hfm
    rcases List.mem_append.mp hfm with hm | hm
    · exact h f hm
    · have : f = mkGraphFile env (splitext x.entryName).1
          (splitext x.entryName).2 path ("black") := by simpa using hm
      rw [this]
      rfl

theorem stepEntry_palette (env : Env) (path : String)
    (st : List GraphFile × Nat) (x : DirEntry) (h : colorsInPalette st.1) :
    colorsInPalette (stepEntry env true path st x).1 := by
  cases hx : x.isFile
  · rw [stepEntry_skip env true path st x hx]
    exact h
  · rw [stepEntry_true_eq env path st x hx]
    cases hf : st.1.find? (fun f => f.name == (splitext x.entryName).1) with
    | some f0 =>
      intro f hfm
      rcases List.mem_append.mp hfm with hm | hm
      · exact h f hm
      · have hfe : f = mkGraphFile env (splitext x.entryName).1
            (splitext x.entryName).2 path f0.color := by simpa using hm
        rw [hfe]
        exact h f0 (List.mem_of_find?_eq_some hf)
    | none =>
      intro f hfm
      rcases List.mem_append.mp hfm with hm | hm
      · exact h f hm
      · have hfe : f = mkGraphFile env (splitext x.entryName).1
            (splitext x.entryName).2 path
            (COLOR_LIST.getD (st.2 % COLOR_LIST.length) ("black")) := by
          simpa using hm
        rw [hfe]
        have hlt : st.2 % COLOR_LIST.length < COLOR_LIST.length :=
          Nat.mod_lt _ (by decide)
        show COLOR_LIST.getD (st.2 % COLOR_LIST.length) ("black") ∈ COLOR_LIST
        rw [List.getD_eq_getElem COLOR_LIST ("black") hlt]
        exact List.getElem_mem hlt

theorem getDirFiles_pres (env : Env) (cm : Bool)
    (P : List GraphFile × Nat → Prop)
    (hstep : ∀ p st x, P st → P (stepEntry env cm p st x))
    (st : List GraphFile × Nat) (path : String) (h : P st) :
    P (getDirFiles env cm st path) :=
  foldl_preserves (fun a b ha => hstep path a b ha) (env.scandir path) st h

theorem initLoop_pres (env : Env) (cm : Bool) (P : List GraphFile × Nat → Prop)
    (hstep : ∀ st p, P st → P (getDirFiles env cm st p)) :
    ∀ (ds : List String) (st : List GraphFile × Nat) (tr : List String)
      (st' : List GraphFile × Nat) (tr' : List String),
      P st → initLoop env cm ds st tr = (.ok st', tr') → P st' := by
  intro ds
  induction ds with
  | nil =>
    intro st tr st' tr' hP h
    simp only [initLoop] at h
    injection h with h1 h2
    injection h1 with h1
    rw [← h1]
    exact hP
  | cons d ds ih =>
    intro st tr st' tr' hP h
    simp only [initLoop] at h
    split at h
    · exact ih _ _ _ _ (hstep st (dirSlash d) hP) h
    · injection h with h1 h2
      exact Except.noConfusion h1

theorem mkGraphSet_ok_prop (env : Env) (dirs : List String) (n m o : String)
    (sa : Option String) (ko cm : Bool) (gs : GraphSet) (tr : List String)
    (P : List GraphFile × Nat → Prop) (h0 : P ([], 0))
    (hstep : ∀ st p, P st → P (getDirFiles env cm st p))
    (h : mkGraphSet env dirs n m o sa ko cm = (.ok gs, tr)) :
    P (gs.files, gs.colorIdx) := by
  unfold mkGraphSet at h
  split at h
  · split at h
    case _ st0 tr0 heq =>
      injection h with h1 h2
      injection h1 with h1
      rw [← h1]
      exact initLoop_pres env cm P hstep dirs ([], 0) [] st0 tr0 h0 heq
    case _ e tr0 heq =>
      injection h with h1 h2
      exact Except.noConfusion h1
  · injection h with h1 h2
    exact Except.noConfusion h1

/-- Claim C6: in a successfully constructed `GraphSet` with color mode
enabled, any two collected files sharing a base name carry the same
color, whatever the directories, scan order and file contents; the
assignment is a deterministic function of the scan order. -/
theorem color_reuse_same_name (env : Env) (dirs : List String) (n m o : String)
    (sa : Option String) (ko : Bool) (gs : GraphSet) (tr : List String)
    (h : mkGraphSet env dirs n m o sa ko true = (.ok gs, tr)) :
    ∀ f ∈ gs.files, ∀ g ∈ gs.files, f.name = g.name → f.color = g.color :=
  mkGraphSet_ok_prop env dirs n m o sa ko true gs tr
    (fun st => sameNameColor st.1)
    (fun f hf => absurd hf (List.not_mem_nil f))
    (fun st p hst => getDirFiles_pres env true (fun st => sameNameColor st.1)
      (fun p' st' x h' => stepEntry_sameName env p' st' x h') st p hst)
    h

theorem color_reuse_same_name_witness :
    mkGraphSet envW6 ["d"] "set" "file" "." none false true = (.ok gsW6, ["d/"]) ∧
    (⟨"a", ".c", "d/", "aquamarine4", []⟩ : GraphFile) ∈ gsW6.files ∧
    (⟨"a", ".h", "d/", "aquamarine4", []⟩ : GraphFile) ∈ gsW6.files ∧
    (⟨"a", ".c", "d/", "aquamarine4", []⟩ : GraphFile).color =
      (⟨"a", ".h", "d/", "aquamarine4", []⟩ : GraphFile).color :=
  ⟨rfl, by decide, by decide,
   color_reuse_same_name envW6 ["d"] "set" "file" "." none false gsW6 ["d/"]
     rfl _ (by decide) _ (by decide) rfl⟩

/-- Claim C2 (amended): with color mode disabled every collected file is
assigned the fixed color `black` (the palette is not consulted); with
color mode enabled, colors are drawn from the fixed palette and files
sharing a base name share a color (the first same-named file donates
its color). -/
theorem color_mode_assignment (env : Env) (dirs : List String) (n m o : String)
    (sa : Option String) (ko cm : Bool) (gs : GraphSet) (tr : List String)
    (h : mkGraphSet env dirs n m o sa ko cm = (.ok gs, tr)) :
    (cm = false → ∀ f ∈ gs.files, f.color = "black") ∧
    (cm = true → (∀ f ∈ gs.files, f.color ∈ COLOR_LIST) ∧
      ∀ f ∈ gs.files, ∀ g ∈ gs.files, f.name = g.name → f.color = g.color) := by
  constructor
  · rintro rfl
    exact mkGraphSet_ok_prop env dirs n m o sa ko false gs tr
      (fun st => allBlack st.1)
      (fun f hf => absurd hf (List.not_mem_nil f))
      (fun st p hst => getDirFiles_pres env false (fun st => allBlack st.1)
        (fun p' st' x h' => stepEntry_black env p' st' x h') st p hst)
      h
  · rintro rfl
    refine ⟨?_, ?_⟩
    · exact mkGraphSet_ok_prop env dirs n m o sa ko true gs tr
        (fun st => colorsInPalette st.1)
        (fun f hf => absurd hf (List.not_mem_nil f))
        (fun st p hst => getDirFiles_pres env true (fun st => colorsInPalette st.1)
          (fun p' st' x h' => stepEntry_palette env p' st' x h') st p hst)
        h
    · exact mkGraphSet_ok_prop env dirs n m o sa ko true gs tr
        (fun st => sameNameColor st.1)
        (fun f hf => absurd hf (List.not_mem_nil f))
        (fun st p hst => getDirFiles_pres env true (fun st => sameNameColor st.1)
          (fun p' st' x h' => stepEntry_sameName env p' st' x h') st p hst)
        h

/-- Claim C2 counterexample: with color mode disabled both collected
files receive the fixed color `black`, whereas cycling through the
palette would give the first two files the two distinct leading palette
entries. -/
theorem color_mode_disabled_counterexample :
    (filesOf (mkGraphSet envC2 ["d"] "set" "file" "." none false false).1).map
      (fun f => f.color) = ["black", "black"] ∧
    ["black", "black"] ≠
      [COLOR_LIST.getD 0 ("black"), COLOR_LIST.getD 1 ("black")] := by
  decide

theorem color_mode_assignment_witness :
    mkGraphSet envC2 ["d"] "set" "file" "." none false false =
      (.ok gsW2, ["d/"]) ∧
    (∀ f ∈ gsW2.files, f.color = "black") :=
  ⟨rfl,
   (color_mode_assignment envC2 ["d"] "set" "file" "." none false false gsW2
     ["d/"] rfl).1 rfl⟩

theorem initLoop_error_of_bad (env : Env) (cm : Bool) :
    ∀ (ds : List String) (st : List GraphFile × Nat) (tr : List String)
      (d : String), d ∈ ds → env.isDir d = false →
      ∃ e, (initLoop env cm ds st tr).1 = .error e := by
  intro ds
  induction ds with
  | nil =>
    intro st tr d hd _
    exact absurd hd (List.not_mem_nil d)
  | cons d0 ds ih =>
    intro st tr d hd hbad
    cases hh : env.isDir d0
    · simp only [initLoop]
      rw [if_neg (by simp [hh])]
      exact ⟨.valueErrorNotDir d0, rfl⟩
    · have hd' : d ∈ ds := by
        rcases List.mem_cons.mp hd with rfl | hd'
        · rw [hh] at hbad
          exact Bool.noConfusion hbad
        · exact hd'
      simp only [initLoop]
      rw [if_pos hh]
      exact ih _ _ d hd' hbad

/-- Claim C9: construction fails with a `ValueError` when the output
path is not a directory — in that case nothing at all is scanned (the
trace of scanned directories is empty, so no files are collected) — and
it also fails when any entry of the input directory list is not a
directory. -/
theorem init_validation (env : Env) (dirs : List String) (n m o : String)
    (sa : Option String) (ko cm : Bool) :
    (env.isDir o = false →
      mkGraphSet env dirs n m o sa ko cm =
        (.error (.valueErrorNotDir o), [])) ∧
    (∀ d ∈ dirs, env.isDir d = false →
      ∃ e, (mkGraphSet env dirs n m o sa ko cm).1 = .error e) := by
  constructor
  · intro h
    unfold mkGraphSet
    rw [if_neg (by simp [h])]
  · intro d hd hbad
    cases ho : env.isDir o
    · refine ⟨.valueErrorNotDir o, ?_⟩
      unfold mkGraphSet
      rw [if_neg (by simp [ho])]
    · unfold mkGraphSet
      rw [if_pos ho]
      obtain ⟨e, he⟩ := initLoop_error_of_bad env cm dirs ([], 0) [] d hd hbad
      cases hres : initLoop env cm dirs ([], 0) [] with
      | mk r tr' =>
        cases r with
        | ok st =>
          rw [hres] at he
          exact absurd he (by simp)
        | error e' =>
          exact ⟨e', rfl⟩

theorem init_validation_witness :
    envW9.isDir "out" = false ∧
    mkGraphSet envW9 ["x"] "set" "file" "out" none false false =
      (.error (.valueErrorNotDir "out"), []) :=
  ⟨rfl, (init_validation envW9 ["x"] "set" "file" "out" none false false).1 rfl⟩

end Grapher
